import Mathlib

/-
Verification of the zstar pack/unpack pipeline core.

The definitions below are shallow embeddings of the Rust sources:
  src/commands/pack.rs         (threaded reader pool, writer, ChannelReader)
  src/commands/pack_uring.rs   (io_uring reader variant)
  src/commands/unpack.rs       (unpack dispatch and post-processing)
Paths are modelled as lists of components, byte buffers as lists of
naturals, channels as explicit lists of messages, and the concurrent
parts as explicit transition systems.
-/

namespace ZStar

/-- CHUNK_SIZE from pack.rs: 4 MiB. -/
def CHUNK_SIZE : Nat := 4 * 1024 * 1024

/-- MEMORY_FILE_THRESHOLD from pack.rs: 128 MiB. -/
def MEMORY_FILE_THRESHOLD : Nat := 128 * 1024 * 1024

/-- FileMetadata from utils/mod.rs: mode, mtime, uid, gid captured by one stat call. -/
structure FileMetadata where
  mode : Nat
  mtime : Nat
  uid : Nat
  gid : Nat
deriving DecidableEq, Repr

/-- TarEntry from pack.rs: the tagged variant sent between pipeline stages. -/
inductive TarEntry where
  | smallFile (path : List String) (data : List Nat) (meta : FileMetadata)
  | largeFileStart (path : List String) (totalSize : Nat) (meta : FileMetadata)
  | largeFileChunk (data : List Nat)
  | largeFileEnd
  | symlink (path : List String) (target : List String) (meta : FileMetadata)
  | hardLink (path : List String) (target : List String)
  | dir (path : List String) (meta : FileMetadata)
deriving DecidableEq, Repr

/-- Input to the regular-file branch of process_entry in pack.rs: the stat
length from symlink_metadata, and the bytes actually readable from the file. -/
structure RegularFileInput where
  relpath : List String
  statLen : Nat
  content : List Nat
  meta : FileMetadata

/-- Chunk loop of the large-file branch in pack.rs (lines 212-231): while
remain is positive, read min remain CHUNK_SIZE bytes at the current file
position and emit them as one chunk; remain decreases by that amount. -/
def readChunksFrom (data : List Nat) (pos remain : Nat) : List (List Nat) :=
  if h : remain = 0 then []
  else
    let chunkSize := min remain CHUNK_SIZE
    ((data.drop pos).take chunkSize) :: readChunksFrom data (pos + chunkSize) (remain - chunkSize)
termination_by remain
decreasing_by
  have hpos : 0 < remain := Nat.pos_of_ne_zero h
  have hcs : 0 < min remain CHUNK_SIZE := by
    refine lt_min hpos ?_
    norm_num [CHUNK_SIZE]
  exact Nat.sub_lt hpos hcs

/-- Regular-file branch of process_entry in pack.rs (lines 199-250): small
files (stat length below the threshold) are read whole with read_to_end and
emitted as one SmallFile on the metadata channel; large files emit a
LargeFileStart on the metadata channel, then chunks and a LargeFileEnd on
the dedicated chunk channel. Returns (metadata channel msgs, chunk channel msgs). -/
def processRegularFile (f : RegularFileInput) : List TarEntry × List TarEntry :=
  if MEMORY_FILE_THRESHOLD ≤ f.statLen then
    ([TarEntry.largeFileStart f.relpath f.statLen f.meta],
     (readChunksFrom f.content 0 f.statLen).map TarEntry.largeFileChunk ++ [TarEntry.largeFileEnd])
  else
    ([TarEntry.smallFile f.relpath f.content f.meta], [])

/-- IOErrorKind values produced by ChannelReader::read in pack.rs. -/
inductive IOErrorKind where
  | unexpectedEof (expected got : Nat)
  | invalidData
  | brokenPipe
  | otherErr
deriving DecidableEq, Repr

/-- ChannelReader state from pack.rs (lines 317-325): current chunk buffer,
cursor into it, exhausted flag, cumulative bytes delivered, expected total. -/
structure ChannelReader where
  buffer : List Nat
  cursor : Nat
  exhausted : Bool
  totalRead : Nat
  expected : Nat
deriving DecidableEq, Repr

/-- One message as received from the chunk channel: a successful TarEntry or
an error value forwarded by a reader. -/
inductive ChanMsg where
  | okMsg (e : TarEntry)
  | errMsg
deriving DecidableEq, Repr

/-- ChannelReader::read from pack.rs (lines 327-384).  The channel is the
list of messages recv will deliver; an empty list means the channel is
closed (all senders dropped).  Returns the bytes copied to the caller, the
new reader state and the remaining channel, or the io error kind. -/
def channelReaderRead (r : ChannelReader) (chan : List ChanMsg) (outLen : Nat) :
    Except IOErrorKind (List Nat × ChannelReader × List ChanMsg) :=
  if r.exhausted then .ok ([], r, chan)
  else if r.cursor < r.buffer.length then
    let available := r.buffer.length - r.cursor
    let toRead := min available outLen
    let copied := ((r.buffer.drop r.cursor).take toRead)
    let r1 : ChannelReader :=
      { r with cursor := r.cursor + toRead, totalRead := r.totalRead + toRead }
    let r2 : ChannelReader :=
      if r1.cursor = r1.buffer.length then { r1 with buffer := [] } else r1
    .ok (copied, r2, chan)
  else
    match chan with
    | [] => .error .brokenPipe
    | .errMsg :: _ => .error .otherErr
    | .okMsg e :: rest =>
      match e with
      | .largeFileChunk buf =>
          channelReaderRead { r with buffer := buf, cursor := 0 } rest outLen
      | .largeFileEnd =>
          if r.totalRead ≠ r.expected then
            .error (.unexpectedEof r.expected r.totalRead)
          else
            .ok ([], { r with exhausted := true }, rest)
      | _ => .error .invalidData
termination_by chan.length
decreasing_by
  simp

/-- Tar entry types used by the writer in pack.rs. -/
inductive EType where
  | directory
  | symlinkType
  | link
  | regular
deriving DecidableEq, Repr

/-- Tar header fields the writer sets in pack.rs.  A GNU header starts with
type regular, size 0, mode 0, uid 0, gid 0, mtime 0 and no link name;
cksumSet records that set_cksum was called. -/
structure Header where
  etype : EType
  size : Nat
  mode : Nat
  uid : Nat
  gid : Nat
  mtime : Nat
  linkName : Option (List String)
  cksumSet : Bool
deriving DecidableEq, Repr

/-- Calls the writer makes into the tar builder, per entry.  appendData is
tar.append_data with an explicit header and an in-memory body; appendDir is
tar.append_dir, which derives its own header from the metadata of the local
source directory given as second argument; appendStream is tar.append_data
with the ChannelReader as body. -/
inductive Emission where
  | appendData (hdr : Header) (path : List String) (body : List Nat)
  | appendDir (path : List String) (srcDir : String)
  | appendStream (hdr : Header) (path : List String)
deriving DecidableEq, Repr

/-- WriterError: the writer aborts with anyhow bail on a protocol violation. -/
inductive WriterError where
  | protocolViolation
deriving DecidableEq, Repr

/-- Writer dispatch from pack.rs (lines 284-427), one metadata-channel entry.
The ignoreErrors flag is the runs ignore_errors option; the writer never
consults it.  In the Dir arm the code builds a fully populated header
(entry type Directory, size 0, mode, uid, gid, mtime, checksum) and then
calls tar.append_dir(&path, ".") which does not take that header; the local
header is dropped, which the model mirrors by an unused let. -/
def writerStep (ignoreErrors : Bool) (e : TarEntry) : Except WriterError Emission :=
  match e with
  | .dir path meta =>
      let localHeader : Header :=
        ⟨.directory, 0, meta.mode, meta.uid, meta.gid, meta.mtime, none, true⟩
      let _ := localHeader
      let _ := ignoreErrors
      .ok (.appendDir path ".")
  | .smallFile path buf meta =>
      .ok (.appendData
        ⟨.regular, buf.length, meta.mode, meta.uid, meta.gid, meta.mtime, none, true⟩
        path buf)
  | .largeFileStart path len meta =>
      .ok (.appendStream
        ⟨.regular, len, meta.mode, meta.uid, meta.gid, meta.mtime, none, true⟩ path)
  | .largeFileChunk _ => .error .protocolViolation
  | .largeFileEnd => .error .protocolViolation
  | .symlink path target meta =>
      .ok (.appendData
        ⟨.symlinkType, 0, meta.mode, meta.uid, meta.gid, meta.mtime, some target, true⟩
        path [])
  | .hardLink path target =>
      .ok (.appendData ⟨.link, 0, 420, 0, 0, 0, some target, true⟩ path [])

/-- Modelled from the spec: the Dir row of the writer table in section 4.3
says the emission for a Dir entry is a GNU header with type Directory,
size 0 and mode, uid, gid, mtime taken from the captured FileMetadata,
with an empty body. -/
def specDirEmission (path : List String) (meta : FileMetadata) : Emission :=
  .appendData ⟨.directory, 0, meta.mode, meta.uid, meta.gid, meta.mtime, none, true⟩ path []

/-- Rust Path::strip_prefix on component lists: succeeds with the remainder
when the base is a leading run of components, fails otherwise. -/
def stripBase (base p : List String) : Option (List String) :=
  match base, p with
  | [], rest => some rest
  | _ :: _, [] => none
  | b :: bs, x :: xs => if x = b then stripBase bs xs else none

/-- Fallback of the relative path logic: file_name of the path, or the
literal "unknown" when the path has no final component. -/
def fallbackRelPath (path : List String) : List String :=
  match path.getLast? with
  | some n => [n]
  | none => ["unknown"]

/-- Relative path of the threaded reader pool, pack.rs lines 140-147: strip
the canonicalized input root itself from the absolute path; on failure fall
back to the basename, then to "unknown". -/
def relativePathThreaded (path base : List String) : List String :=
  match stripBase base path with
  | some p => p
  | none => fallbackRelPath path

/-- Parent of the input root in pack_uring.rs line 138:
base_path.parent().unwrap_or(&base_path). -/
def parentOf (b : List String) : List String :=
  if b = [] then b else b.dropLast

/-- Relative path of the uring reader, pack_uring.rs lines 138-145: strip the
parent of the input root; on failure fall back to the basename, then to
"unknown". -/
def relativePathUring (path base : List String) : List String :=
  match stripBase (parentOf base) path with
  | some p => p
  | none => fallbackRelPath path

/-- Inode cache from pack.rs: a DashMap from FileId to PathBuf, modelled as
an association list where the most recent insert wins (DashMap insert
overwrites). -/
def cacheLookup (c : List (Nat × List String)) (fid : Nat) : Option (List String) :=
  (c.find? (fun e => e.1 == fid)).map (fun e => e.2)

/-- DashMap insert: the new binding shadows any previous one. -/
def cacheInsert (c : List (Nat × List String)) (fid : Nat) (p : List String) :
    List (Nat × List String) :=
  (fid, p) :: c

/-- One regular-file task of the hardlink check: its FileId and relative path. -/
structure HLTask where
  fid : Nat
  relpath : List String
deriving DecidableEq, Repr

/-- Emission of the hardlink check: either the file content entry itself
(SmallFile or LargeFileStart, summarized as fileEntry) or a HardLink
referencing an earlier relative path. -/
inductive HLEmit where
  | fileEntry (fid : Nat) (relpath : List String)
  | hardLinkEntry (fid : Nat) (relpath : List String) (target : List String)
deriving DecidableEq, Repr

/-- Program counter of one reader executing the hardlink check of
process_entry, pack.rs lines 178-197: the DashMap get and the insert are two
separate atomic operations, and the file entry is emitted after the insert. -/
inductive HLPc where
  | ready
  | checked (found : Option (List String))
  | inserted
  | finished
deriving DecidableEq, Repr

/-- Shared state of the interleaved hardlink check: the cache, per-reader
program counters, and the emitted entries in channel order. -/
structure HLState where
  cache : List (Nat × List String)
  pcs : List HLPc
  emitted : List HLEmit
deriving DecidableEq, Repr

/-- One atomic step of reader r (an index into tasks) of the hardlink check;
a step of a finished or out-of-range reader changes nothing. -/
def hlStep (tasks : List HLTask) (s : HLState) (r : Nat) : HLState :=
  match tasks[r]?, s.pcs[r]? with
  | some t, some pc =>
    match pc with
    | .ready => { s with pcs := s.pcs.set r (.checked (cacheLookup s.cache t.fid)) }
    | .checked (some tgt) =>
        { s with pcs := s.pcs.set r .finished,
                 emitted := s.emitted ++ [.hardLinkEntry t.fid t.relpath tgt] }
    | .checked none =>
        { s with pcs := s.pcs.set r .inserted,
                 cache := cacheInsert s.cache t.fid t.relpath }
    | .inserted =>
        { s with pcs := s.pcs.set r .finished,
                 emitted := s.emitted ++ [.fileEntry t.fid t.relpath] }
    | .finished => s
  | _, _ => s

/-- Initial state: empty cache, every reader ready, nothing emitted. -/
def hlInit (tasks : List HLTask) : HLState :=
  ⟨[], List.replicate tasks.length HLPc.ready, []⟩

/-- Run the interleaved hardlink check under an explicit schedule of reader
indices. -/
def hlRun (tasks : List HLTask) (sched : List Nat) : HLState :=
  sched.foldl (hlStep tasks) (hlInit tasks)

/-- First fileEntry path recorded for a FileId in an emission list. -/
def firstFilePath (es : List HLEmit) (fid : Nat) : Option (List String) :=
  (es.find? (fun e => match e with | .fileEntry f _ => f == fid | _ => false)).map
    (fun e => match e with | .fileEntry _ p => p | .hardLinkEntry _ _ t => t)

/-- Formalization of claim C3 over one interleaved run: at most one
non-hardlink emission per FileId, every hardlink emission targets the first
file emission path of its FileId, and the cache maps each emitted FileId to
that first path. -/
def claimC3check (tasks : List HLTask) (sched : List Nat) : Bool :=
  let s := hlRun tasks sched
  let files := s.emitted.filterMap
    (fun e => match e with | .fileEntry f p => some (f, p) | _ => none)
  decide ((files.map Prod.fst).Nodup) &&
  files.all (fun pr => cacheLookup s.cache pr.1 == some pr.2) &&
  s.emitted.all (fun e => match e with
    | .hardLinkEntry f _ tgt => firstFilePath s.emitted f == some tgt
    | _ => true)

/-- Hardlink check of process_entry, pack.rs lines 178-197, as the atomic
function it computes when the get and insert of one task are not interleaved
with another task of the same FileId. -/
def processTask (cache : List (Nat × List String)) (t : HLTask) :
    List (Nat × List String) × List HLEmit :=
  match cacheLookup cache t.fid with
  | some tgt => (cache, [.hardLinkEntry t.fid t.relpath tgt])
  | none => (cacheInsert cache t.fid t.relpath, [.fileEntry t.fid t.relpath])

/-- Sequential processing of a task list starting from a given cache. -/
def seqRunFrom (cache : List (Nat × List String)) (tasks : List HLTask) :
    List (Nat × List String) × List HLEmit :=
  match tasks with
  | [] => (cache, [])
  | t :: ts =>
    ((seqRunFrom (processTask cache t).1 ts).1,
     (processTask cache t).2 ++ (seqRunFrom (processTask cache t).1 ts).2)

/-- Sequential processing of a task list from the empty cache. -/
def seqRun (tasks : List HLTask) : List (Nat × List String) × List HLEmit :=
  seqRunFrom [] tasks

/-- Expected emissions of sequential processing: a task whose FileId appeared
among the previously processed tasks becomes a HardLink to the first such
task, otherwise the file entry itself. -/
def seqExpectedFrom (prev rest : List HLTask) : List HLEmit :=
  match rest with
  | [] => []
  | t :: ts =>
    (match prev.find? (fun u => u.fid == t.fid) with
     | some u => HLEmit.hardLinkEntry t.fid t.relpath u.relpath
     | none => HLEmit.fileEntry t.fid t.relpath) :: seqExpectedFrom (prev ++ [t]) ts

/-- Rust std Path component kinds relevant to unpack entry paths. -/
inductive PComp where
  | parent
  | name (s : String)
deriving DecidableEq, Repr

/-- A Rust PathBuf: whether it is absolute, and its components. -/
structure RPath where
  abs : Bool
  comps : List PComp
deriving DecidableEq, Repr

/-- Rust Path::join: an absolute right side replaces the left side, otherwise
the components are appended without any resolution. -/
def rjoin (a b : RPath) : RPath :=
  if b.abs then b else ⟨a.abs, a.comps ++ b.comps⟩

/-- Rust Path::strip_prefix as a success test: a purely syntactic
component-wise prefix match; ParentDir components are not resolved. -/
def rstripOk (base p : RPath) : Bool :=
  base.abs == p.abs && base.comps.isPrefixOf p.comps

/-- Path sanitization check of unpack.rs lines 69-73: the entry is skipped
iff stripping the output root from output.join(entry_path) fails. -/
def unpackSkips (output entry : RPath) : Bool :=
  !(rstripOk output (rjoin output entry))

/-- Lexical resolution of ParentDir components: a ParentDir pops the last
resolved component. -/
def resolveComps (acc : List PComp) (cs : List PComp) : List PComp :=
  match cs with
  | [] => acc
  | .name s :: restC => resolveComps (acc ++ [PComp.name s]) restC
  | .parent :: restC => resolveComps acc.dropLast restC

/-- Modelled from the spec: the resolved output path of claim C2, the output
root joined with the entry path with ParentDir components resolved. -/
def resolve (p : RPath) : RPath := ⟨p.abs, resolveComps [] p.comps⟩

/-- Modelled from the spec: the descendant test of claim C2 on resolved paths. -/
def isDescendant (p root : RPath) : Bool :=
  p.abs == root.abs && root.comps.isPrefixOf p.comps

/-- Modelled from the spec: an entry escapes when its resolved output path is
not a descendant of the resolved output root. -/
def resolvedEscapes (output entry : RPath) : Bool :=
  !(isDescendant (resolve (rjoin output entry)) (resolve output))

/-- Worker behaviour for a small regular file, unpack.rs lines 200-211: the
file is created with File::create at the joined target path, so the
filesystem object appears at the resolution of that path. -/
def workerCreatesAt (output entry : RPath) : RPath := resolve (rjoin output entry)

/-- Filesystem node kinds for the unpack post-processing model. -/
inductive FSNode where
  | fileNode
  | dirNode
  | symlinkNode (target : List String)
deriving DecidableEq, Repr

/-- Filesystem as an association list from paths to nodes; the most recent
entry wins. -/
def fsLookup (fs : List (List String × FSNode)) (p : List String) : Option FSNode :=
  (fs.find? (fun e => e.1 == p)).map (fun e => e.2)

/-- Creation of a filesystem object. -/
def fsInsert (fs : List (List String × FSNode)) (p : List String) (n : FSNode) :
    List (List String × FSNode) :=
  (p, n) :: fs

/-- std::fs::remove_file. -/
def fsRemove (fs : List (List String × FSNode)) (p : List String) :
    List (List String × FSNode) :=
  fs.filter (fun e => !(e.1 == p))

/-- Unpack post-processing error classification. -/
inductive UnpackErr where
  | alreadyExists
  | notFound
deriving DecidableEq, Repr

/-- create_dir_all on the parent of a path: ensure the parent directory
exists (modelled one level deep; deeper ancestors are irrelevant here). -/
def ensureParent (fs : List (List String × FSNode)) (p : List String) :
    List (List String × FSNode) :=
  match p.dropLast with
  | [] => fs
  | par => if (fsLookup fs par).isSome then fs else fsInsert fs par .dirNode

/-- std::os::unix::fs::symlink: fails with AlreadyExists when the path
already exists, otherwise creates the symlink node. -/
def symlinkSyscall (fs : List (List String × FSNode)) (target p : List String) :
    Except UnpackErr (List (List String × FSNode)) :=
  if (fsLookup fs p).isSome then .error .alreadyExists
  else .ok (fsInsert fs p (.symlinkNode target))

/-- Symlink restoration, unpack.rs lines 135-148 (unix branch): create the
parent directories, then symlink, treating AlreadyExists as success with the
filesystem left as it was; other errors propagate through the question mark. -/
def restoreSymlink (fs : List (List String × FSNode)) (target p : List String) :
    Except UnpackErr (List (List String × FSNode)) :=
  match symlinkSyscall (ensureParent fs p) target p with
  | .error .alreadyExists => .ok (ensureParent fs p)
  | r => r

/-- std::fs::hard_link: fails with NotFound when the target does not exist,
with AlreadyExists when the link path exists, else creates the link. -/
def hardLinkSyscall (fs : List (List String × FSNode)) (target p : List String) :
    Except UnpackErr (List (List String × FSNode)) :=
  if (fsLookup fs target).isSome then
    if (fsLookup fs p).isSome then .error .alreadyExists
    else .ok (fsInsert fs p .fileNode)
  else .error .notFound

/-- Hardlink restoration, unpack.rs lines 160-171: create the parent
directories, remove any existing file at the link path (errors of the
removal ignored), then hard_link; a hard_link failure propagates and is
fatal. -/
def restoreHardLink (fs : List (List String × FSNode)) (target p : List String) :
    Except UnpackErr (List (List String × FSNode)) :=
  hardLinkSyscall
    (if (fsLookup (ensureParent fs p) p).isSome
     then fsRemove (ensureParent fs p) p
     else ensureParent fs p)
    target p

/-- One large file job for the gate model: an identifier and its chunk count. -/
structure LFile where
  fid : Nat
  nchunks : Nat
deriving DecidableEq, Repr

/-- Reader program counter for the large-file branch of process_entry in
pack.rs: idle, holding the gate before sending LargeFileStart, streaming
after sending it (sent counts the emitted chunks), streamed after sending
LargeFileEnd and before releasing the gate. -/
inductive RProg where
  | idle
  | acquiredGate (f : LFile)
  | streaming (f : LFile) (sent : Nat)
  | streamed (f : LFile)
deriving DecidableEq, Repr

/-- Events observable on the channels, tagged with the emitting reader and
file for specification purposes only; the real chunk messages carry no file
tag, which is exactly why contiguity matters. -/
inductive GEvent where
  | startEvt (r : Nat) (fid : Nat)
  | chunkEvt (r : Nat) (fid : Nat) (idx : Nat)
  | endEvt (r : Nat) (fid : Nat)
deriving DecidableEq, Repr

/-- Global state of the gate model: the large_file_mutex owner, each reader
program counter, each reader queue of pending large files, and the trace of
emitted events in global send order. -/
structure GState where
  lock : Option Nat
  progs : Nat → RProg
  queues : Nat → List LFile
  trace : List GEvent

/-- Transitions of the large-file protocol of pack.rs lines 199-234: a
reader acquires the free gate taking its next file, sends LargeFileStart on
the metadata channel, sends each chunk in order on the chunk channel, sends
LargeFileEnd, and releases the gate when the lock guard drops. -/
inductive GStep : GState → GState → Prop where
  | acquire (s : GState) (r : Nat) (f : LFile) (q : List LFile) :
      s.lock = none → s.progs r = .idle → s.queues r = f :: q →
      GStep s { s with lock := some r,
                       progs := Function.update s.progs r (.acquiredGate f),
                       queues := Function.update s.queues r q }
  | sendStart (s : GState) (r : Nat) (f : LFile) :
      s.progs r = .acquiredGate f →
      GStep s { s with progs := Function.update s.progs r (.streaming f 0),
                       trace := s.trace ++ [GEvent.startEvt r f.fid] }
  | sendChunk (s : GState) (r : Nat) (f : LFile) (k : Nat) :
      s.progs r = .streaming f k → k < f.nchunks →
      GStep s { s with progs := Function.update s.progs r (.streaming f (k + 1)),
                       trace := s.trace ++ [GEvent.chunkEvt r f.fid k] }
  | sendEnd (s : GState) (r : Nat) (f : LFile) :
      s.progs r = .streaming f f.nchunks →
      GStep s { s with progs := Function.update s.progs r (.streamed f),
                       trace := s.trace ++ [GEvent.endEvt r f.fid] }
  | release (s : GState) (r : Nat) (f : LFile) :
      s.progs r = .streamed f → s.lock = some r →
      GStep s { s with lock := none,
                       progs := Function.update s.progs r .idle }

/-- Initial state: gate free, readers idle, queues given, empty trace. -/
def gInit (queues : Nat → List LFile) : GState :=
  ⟨none, fun _ => .idle, queues, []⟩

/-- Reachability of the gate model from the initial state. -/
def GReachable (queues : Nat → List LFile) (s : GState) : Prop :=
  Relation.ReflTransGen GStep (gInit queues) s

/-- Started portion of a block: the Start event followed by the first k
chunk events of the file. -/
def startedEvents (r : Nat) (f : LFile) (k : Nat) : List GEvent :=
  GEvent.startEvt r f.fid :: (List.range k).map (fun i => GEvent.chunkEvt r f.fid i)

/-- A complete block: Start, all chunks in order, End. -/
def blockEvents (r : Nat) (f : LFile) : List GEvent :=
  startedEvents r f f.nchunks ++ [GEvent.endEvt r f.fid]

/-- Closed traces: concatenations of complete per-file blocks. -/
inductive ClosedTrace : List GEvent → Prop where
  | nil : ClosedTrace []
  | snoc (t : List GEvent) (r : Nat) (f : LFile) :
      ClosedTrace t → ClosedTrace (t ++ blockEvents r f)

/-- A trace is serialized when it is a sequence of complete blocks possibly
followed by one open block: between any LargeFileStart and its matching
LargeFileEnd only chunks of that same reader and file appear, and no other
LargeFileStart intervenes. -/
def TraceSerialized (t : List GEvent) : Prop :=
  ∃ c o, t = c ++ o ∧ ClosedTrace c ∧
    (o = [] ∨ (∃ r f k, k ≤ f.nchunks ∧ o = startedEvents r f k) ∨
      ∃ r f, o = blockEvents r f)

/-- Inductive invariant of the gate model: when the gate is free every
reader is idle and the trace is closed; when reader r holds the gate all
other readers are idle and the trace is a closed part followed by exactly
the open part matching the program counter of r. -/
def GInv (s : GState) : Prop :=
  (s.lock = none → (∀ r, s.progs r = .idle) ∧ ClosedTrace s.trace) ∧
  (∀ r, s.lock = some r →
    (∀ q, q ≠ r → s.progs q = .idle) ∧
    ∃ c, ClosedTrace c ∧
      ((∃ f, s.progs r = .acquiredGate f ∧ s.trace = c) ∨
       (∃ f k, s.progs r = .streaming f k ∧ k ≤ f.nchunks ∧
          s.trace = c ++ startedEvents r f k) ∨
       (∃ f, s.progs r = .streamed f ∧ s.trace = c ++ blockEvents r f)))

end ZStar

namespace ZStar

theorem readChunksFrom_join (data : List Nat) :
    ∀ remain pos, (readChunksFrom data pos remain).flatten = (data.drop pos).take remain := by
  intro remain
  induction remain using Nat.strong_induction_on with
  | _ remain ih =>
    intro pos
    rw [readChunksFrom]
    by_cases h : remain = 0
    · simp [h]
    · simp only [h, dite_false]
      have hpos : 0 < remain := Nat.pos_of_ne_zero h
      have hcs : 0 < min remain CHUNK_SIZE := by
        refine lt_min hpos ?_
        norm_num [CHUNK_SIZE]
      have hlt : remain - min remain CHUNK_SIZE < remain := Nat.sub_lt hpos hcs
      rw [List.flatten_cons, ih _ hlt]
      have hdd : data.drop (pos + min remain CHUNK_SIZE) =
          (data.drop pos).drop (min remain CHUNK_SIZE) := by
        rw [List.drop_drop, Nat.add_comm]
      rw [hdd, ← List.take_add]
      congr 1
      omega

theorem readChunksFrom_length_le (data : List Nat) :
    ∀ remain pos, ∀ c ∈ readChunksFrom data pos remain, c.length ≤ CHUNK_SIZE := by
  intro remain
  induction remain using Nat.strong_induction_on with
  | _ remain ih =>
    intro pos c hc
    rw [readChunksFrom] at hc
    by_cases h : remain = 0
    · simp [h] at hc
    · simp only [h, dite_false, List.mem_cons] at hc
      have hpos : 0 < remain := Nat.pos_of_ne_zero h
      have hcs : 0 < min remain CHUNK_SIZE := by
        refine lt_min hpos ?_
        norm_num [CHUNK_SIZE]
      rcases hc with hc | hc
      · subst hc
        calc ((data.drop pos).take (min remain CHUNK_SIZE)).length
            ≤ min remain CHUNK_SIZE := by
              rw [List.length_take]
              exact min_le_left _ _
          _ ≤ CHUNK_SIZE := min_le_right _ _
      · exact ih _ (Nat.sub_lt hpos hcs) _ c hc

/-- C1: a regular file below the 128 MiB threshold is emitted as exactly one
SmallFile holding its entire content and nothing on the chunk channel; a file
at or above the threshold emits one LargeFileStart carrying the stat size on
the metadata channel, then on the chunk channel a sequence of LargeFileChunk
entries, each at most 4 MiB, whose concatenation is the whole content (so the
lengths sum to the size), followed by exactly one LargeFileEnd.  The
hypothesis states the precondition that reads succeed and the size is stable. -/
theorem reader_small_large_protocol (f : RegularFileInput)
    (hlen : f.content.length = f.statLen) :
    (f.statLen < MEMORY_FILE_THRESHOLD →
      processRegularFile f = ([TarEntry.smallFile f.relpath f.content f.meta], [])) ∧
    (MEMORY_FILE_THRESHOLD ≤ f.statLen →
      (processRegularFile f).1 = [TarEntry.largeFileStart f.relpath f.statLen f.meta] ∧
      ∃ chunks : List (List Nat),
        (processRegularFile f).2 =
          chunks.map TarEntry.largeFileChunk ++ [TarEntry.largeFileEnd] ∧
        (∀ c ∈ chunks, c.length ≤ CHUNK_SIZE) ∧
        chunks.flatten = f.content ∧
        (chunks.map List.length).sum = f.statLen) := by
  constructor
  · intro hsmall
    have : ¬ MEMORY_FILE_THRESHOLD ≤ f.statLen := by omega
    simp [processRegularFile, this]
  · intro hlarge
    have hj : (readChunksFrom f.content 0 f.statLen).flatten = f.content := by
      rw [readChunksFrom_join]
      simp [hlen]
    refine ⟨by simp [processRegularFile, hlarge], readChunksFrom f.content 0 f.statLen,
      by simp [processRegularFile, hlarge], ?_, hj, ?_⟩
    · exact readChunksFrom_length_le f.content f.statLen 0
    · have := congrArg List.length hj
      rw [List.length_flatten] at this
      rw [this, hlen]

/-- C1 witness: a 128 MiB file of zeros exercises the large-file branch. -/
theorem reader_small_large_protocol_witness :
    ((⟨["root", "big"], 134217728, List.replicate 134217728 0,
        ⟨420, 0, 0, 0⟩⟩ : RegularFileInput).content.length = 134217728) ∧
    (MEMORY_FILE_THRESHOLD ≤ 134217728 →
      (processRegularFile ⟨["root", "big"], 134217728, List.replicate 134217728 0,
        ⟨420, 0, 0, 0⟩⟩).1 =
        [TarEntry.largeFileStart ["root", "big"] 134217728 ⟨420, 0, 0, 0⟩] ∧
      ∃ chunks : List (List Nat),
        (processRegularFile ⟨["root", "big"], 134217728, List.replicate 134217728 0,
          ⟨420, 0, 0, 0⟩⟩).2 =
          chunks.map TarEntry.largeFileChunk ++ [TarEntry.largeFileEnd] ∧
        (∀ c ∈ chunks, c.length ≤ CHUNK_SIZE) ∧
        chunks.flatten = List.replicate 134217728 0 ∧
        (chunks.map List.length).sum = 134217728) := by
  have hlen : (List.replicate 134217728 (0 : Nat)).length = 134217728 :=
    List.length_replicate _ _
  exact ⟨hlen,
    (reader_small_large_protocol
      ⟨["root", "big"], 134217728, List.replicate 134217728 0, ⟨420, 0, 0, 0⟩⟩ hlen).2⟩

/-- C4: the StreamingReader of the writer.  If already exhausted, a read
returns zero bytes.  With the current buffer drained, receiving LargeFileEnd
fails with unexpected-EOF carrying (expected, got) when the cumulative count
differs from the expected total, and returns zero bytes when they agree;
receiving any entry other than LargeFileChunk or LargeFileEnd fails with
invalid-data; a closed chunk channel fails with broken-pipe. -/
theorem streaming_reader_error_cases (r : ChannelReader) (chan : List ChanMsg) (outLen : Nat) :
    (r.exhausted = true → channelReaderRead r chan outLen = .ok ([], r, chan)) ∧
    (r.exhausted = false → r.buffer.length ≤ r.cursor →
      ((chan = [] → channelReaderRead r chan outLen = .error .brokenPipe) ∧
       (∀ rest, chan = ChanMsg.okMsg TarEntry.largeFileEnd :: rest →
          (r.totalRead ≠ r.expected →
            channelReaderRead r chan outLen =
              .error (.unexpectedEof r.expected r.totalRead)) ∧
          (r.totalRead = r.expected →
            channelReaderRead r chan outLen =
              .ok ([], { r with exhausted := true }, rest))) ∧
       (∀ e rest, chan = ChanMsg.okMsg e :: rest →
          (∀ buf, e ≠ TarEntry.largeFileChunk buf) → e ≠ TarEntry.largeFileEnd →
          channelReaderRead r chan outLen = .error .invalidData))) := by
  refine ⟨?_, ?_⟩
  · intro hex
    rw [channelReaderRead.eq_def]
    simp [hex]
  · intro hne hdr
    have hnc : ¬ r.cursor < r.buffer.length := by omega
    refine ⟨?_, ?_, ?_⟩
    · intro hchan
      subst hchan
      rw [channelReaderRead.eq_def]
      simp [hne, hnc]
    · intro rest hchan
      subst hchan
      constructor
      · intro hneq
        rw [channelReaderRead.eq_def]
        simp [hne, hnc, hneq]
      · intro heq
        rw [channelReaderRead.eq_def]
        simp [hne, hnc, heq]
    · intro e rest hchan hnchunk hnend
      subst hchan
      cases e with
      | largeFileChunk buf => exact absurd rfl (hnchunk buf)
      | largeFileEnd => exact absurd rfl hnend
      | smallFile p d m =>
        rw [channelReaderRead.eq_def]
        simp [hne, hnc]
      | largeFileStart p s m =>
        rw [channelReaderRead.eq_def]
        simp [hne, hnc]
      | symlink p t m =>
        rw [channelReaderRead.eq_def]
        simp [hne, hnc]
      | hardLink p t =>
        rw [channelReaderRead.eq_def]
        simp [hne, hnc]
      | dir p m =>
        rw [channelReaderRead.eq_def]
        simp [hne, hnc]

/-- C4 witness: a drained reader that received LargeFileEnd after 5 of 7
expected bytes fails with unexpected-EOF carrying (7, 5). -/
theorem streaming_reader_error_cases_witness :
    channelReaderRead ⟨[], 0, false, 5, 7⟩ [ChanMsg.okMsg TarEntry.largeFileEnd] 3 =
      .error (.unexpectedEof 7 5) := by
  have h := (streaming_reader_error_cases ⟨[], 0, false, 5, 7⟩
      [ChanMsg.okMsg TarEntry.largeFileEnd] 3).2 rfl (by decide)
  exact (h.2.1 [] rfl).1 (by decide)

/-- C8: a LargeFileChunk or LargeFileEnd arriving on the metadata channel
makes the writer abort with a protocol violation, for either value of the
ignore_errors option. -/
theorem writer_protocol_violation (ignoreErrors : Bool) (buf : List Nat) :
    writerStep ignoreErrors (TarEntry.largeFileChunk buf) = .error .protocolViolation ∧
    writerStep ignoreErrors TarEntry.largeFileEnd = .error .protocolViolation :=
  ⟨rfl, rfl⟩

/-- C9: for a SmallFile entry the writer emits a header whose size field is
the length of the body buffer it writes, and the body is exactly that buffer.
The reader side imposes no relation between the stat length and the buffer
it read to end of file, so the record stays self-consistent even when the
buffer length differs from the stat length. -/
theorem writer_small_file_header_size (ignoreErrors : Bool) (f : RegularFileInput)
    (h : f.statLen < MEMORY_FILE_THRESHOLD) :
    (processRegularFile f).1 = [TarEntry.smallFile f.relpath f.content f.meta] ∧
    ∃ hdr : Header,
      writerStep ignoreErrors (TarEntry.smallFile f.relpath f.content f.meta) =
        .ok (.appendData hdr f.relpath f.content) ∧
      hdr.size = f.content.length := by
  have hns : ¬ MEMORY_FILE_THRESHOLD ≤ f.statLen := by omega
  refine ⟨by simp [processRegularFile, hns], ?_⟩
  exact ⟨⟨.regular, f.content.length, f.meta.mode, f.meta.uid, f.meta.gid, f.meta.mtime,
      none, true⟩, rfl, rfl⟩

/-- C9 witness: a file whose stat length 10 differs from the 3 bytes actually
read still gets a header sized 3, matching its body. -/
theorem writer_small_file_header_size_witness :
    (processRegularFile ⟨["r", "x"], 10, [1, 2, 3], ⟨420, 0, 0, 0⟩⟩).1 =
      [TarEntry.smallFile ["r", "x"] [1, 2, 3] ⟨420, 0, 0, 0⟩] ∧
    ∃ hdr : Header,
      writerStep true (TarEntry.smallFile ["r", "x"] [1, 2, 3] ⟨420, 0, 0, 0⟩) =
        .ok (.appendData hdr ["r", "x"] [1, 2, 3]) ∧
      hdr.size = ([1, 2, 3] : List Nat).length :=
  writer_small_file_header_size true ⟨["r", "x"], 10, [1, 2, 3], ⟨420, 0, 0, 0⟩⟩ (by decide)

/-- C6: evaluation of the writer at a concrete Dir entry.  The code builds a
directory header carrying the captured metadata but then emits via
tar.append_dir(&path, "."), which ignores that header and derives the header
fields from the metadata of the local directory "."; two Dir entries whose
captured metadata differ produce the identical emission, and the emission is
not the one the spec table prescribes. -/
theorem writer_dir_drops_metadata :
    writerStep true (TarEntry.dir ["r", "d"] ⟨448, 5, 1, 2⟩) =
      .ok (.appendDir ["r", "d"] ".") ∧
    writerStep true (TarEntry.dir ["r", "d"] ⟨493, 99, 3, 4⟩) =
      .ok (.appendDir ["r", "d"] ".") ∧
    (⟨448, 5, 1, 2⟩ : FileMetadata) ≠ ⟨493, 99, 3, 4⟩ ∧
    (Except.ok (.appendDir ["r", "d"] ".") : Except WriterError Emission) ≠
      .ok (specDirEmission ["r", "d"] ⟨448, 5, 1, 2⟩) := by
  refine ⟨rfl, rfl, by decide, by simp [specDirEmission]⟩

theorem stripBase_append (base rest : List String) :
    stripBase base (base ++ rest) = some rest := by
  induction base with
  | nil => rfl
  | cons b bs ih =>
    simp [stripBase, ih]

/-- C5 counterexample: with input root a/root and path a/root/f, the
threaded reader pool emits relative path f, not root/f; the uring reader
emits root/f.  The claim that every reader strips the parent of the root,
retaining the root name, fails on the threaded pool. -/
theorem relative_path_root_not_retained :
    relativePathThreaded ["a", "root", "f"] ["a", "root"] = ["f"] ∧
    relativePathUring ["a", "root", "f"] ["a", "root"] = ["root", "f"] ∧
    (["f"] : List String) ≠ ["root", "f"] := by
  refine ⟨by decide, by decide, by decide⟩

/-- C5 amended: the uring reader strips the parent of the input root, so the
root directory name is retained as the first component; the threaded reader
pool strips the input root itself, so the root name is not retained; in both
variants, when stripping fails the basename of the path is used, and when
the path has no final component the literal "unknown" is used. -/
theorem relative_path_by_variant (base0 : List String) (rootName : String)
    (rest path : List String) :
    relativePathThreaded ((base0 ++ [rootName]) ++ rest) (base0 ++ [rootName]) = rest ∧
    relativePathUring ((base0 ++ [rootName]) ++ rest) (base0 ++ [rootName]) =
      rootName :: rest ∧
    (stripBase (base0 ++ [rootName]) path = none →
      relativePathThreaded path (base0 ++ [rootName]) = fallbackRelPath path) ∧
    (stripBase (parentOf (base0 ++ [rootName])) path = none →
      relativePathUring path (base0 ++ [rootName]) = fallbackRelPath path) ∧
    fallbackRelPath [] = ["unknown"] := by
  have hpar : parentOf (base0 ++ [rootName]) = base0 := by
    unfold parentOf
    simp
  refine ⟨?_, ?_, ?_, ?_, rfl⟩
  · unfold relativePathThreaded
    rw [stripBase_append]
  · unfold relativePathUring
    rw [hpar, List.append_assoc, stripBase_append]
    rfl
  · intro hfail
    unfold relativePathThreaded
    rw [hfail]
  · intro hfail
    unfold relativePathUring
    rw [hpar] at hfail
    rw [hpar, hfail]

/-- C5 witness: concrete instantiation with root a/root, file f and a foreign
path z for the fallback cases. -/
theorem relative_path_by_variant_witness :
    relativePathThreaded ((["a"] ++ ["root"]) ++ ["f"]) (["a"] ++ ["root"]) = ["f"] ∧
    relativePathUring ((["a"] ++ ["root"]) ++ ["f"]) (["a"] ++ ["root"]) =
      "root" :: ["f"] ∧
    relativePathThreaded ["z"] (["a"] ++ ["root"]) = fallbackRelPath ["z"] ∧
    relativePathUring ["z"] (["a"] ++ ["root"]) = fallbackRelPath ["z"] := by
  have h := relative_path_by_variant ["a"] "root" ["f"] ["z"]
  exact ⟨h.1, h.2.1, h.2.2.1 (by decide), h.2.2.2.1 (by decide)⟩

theorem find?_append_cases {α : Type} (q : α → Bool) (l1 l2 : List α) :
    (l1 ++ l2).find? q =
      match l1.find? q with
      | some x => some x
      | none => l2.find? q := by
  induction l1 with
  | nil => simp
  | cons a l ih =>
    by_cases h : q a
    · simp [List.find?_cons, h]
    · simp [List.find?_cons, h, ih]

theorem cacheLookup_cons (f : Nat) (p : List String) (c : List (Nat × List String))
    (fid : Nat) :
    cacheLookup ((f, p) :: c) fid = if f = fid then some p else cacheLookup c fid := by
  unfold cacheLookup
  by_cases h : f = fid
  · subst h
    simp [List.find?_cons]
  · simp [List.find?_cons, h]

theorem seqRunFrom_cons (cache : List (Nat × List String)) (t : HLTask)
    (ts : List HLTask) :
    seqRunFrom cache (t :: ts) =
      ((seqRunFrom (processTask cache t).1 ts).1,
       (processTask cache t).2 ++ (seqRunFrom (processTask cache t).1 ts).2) := rfl

theorem seqExpectedFrom_cons (prev : List HLTask) (t : HLTask) (ts : List HLTask) :
    seqExpectedFrom prev (t :: ts) =
      (match prev.find? (fun u => u.fid == t.fid) with
       | some u => HLEmit.hardLinkEntry t.fid t.relpath u.relpath
       | none => HLEmit.fileEntry t.fid t.relpath) :: seqExpectedFrom (prev ++ [t]) ts := rfl

theorem seqRunFrom_spec (rest : List HLTask) : ∀ prev cache,
    (∀ fid, cacheLookup cache fid =
      (prev.find? (fun u => u.fid == fid)).map HLTask.relpath) →
    (seqRunFrom cache rest).2 = seqExpectedFrom prev rest ∧
    (∀ fid, cacheLookup (seqRunFrom cache rest).1 fid =
      ((prev ++ rest).find? (fun u => u.fid == fid)).map HLTask.relpath) := by
  induction rest with
  | nil =>
    intro prev cache hc
    refine ⟨rfl, ?_⟩
    intro fid
    simpa using hc fid
  | cons t ts ih =>
    intro prev cache hc
    have hct := hc t.fid
    have happ : (prev ++ [t]) ++ ts = prev ++ t :: ts := by
      simp
    cases hfind : cacheLookup cache t.fid with
    | some tgt =>
      rw [hfind] at hct
      obtain ⟨u, hu, hurel⟩ :
          ∃ u, prev.find? (fun v => v.fid == t.fid) = some u ∧ u.relpath = tgt := by
        cases hpf : prev.find? (fun v => v.fid == t.fid) with
        | none =>
          rw [hpf] at hct
          simp at hct
        | some u =>
          rw [hpf] at hct
          simp at hct
          exact ⟨u, rfl, hct.symm⟩
      have hc2 : ∀ fid, cacheLookup cache fid =
          ((prev ++ [t]).find? (fun v => v.fid == fid)).map HLTask.relpath := by
        intro fid
        rw [find?_append_cases]
        cases hpf : prev.find? (fun v => v.fid == fid) with
        | some v =>
          rw [hc fid, hpf]
        | none =>
          rw [hc fid, hpf]
          by_cases hfid : t.fid = fid
          · exfalso
            subst hfid
            rw [hpf] at hu
            exact Option.noConfusion hu
          · have hbf : (t.fid == fid) = false := by
              simp [hfid]
            simp [List.find?, hbf]
      have hrec := ih (prev ++ [t]) cache hc2
      have hpt : processTask cache t = (cache, [HLEmit.hardLinkEntry t.fid t.relpath tgt]) := by
        unfold processTask
        rw [hfind]
      constructor
      · rw [seqRunFrom_cons, seqExpectedFrom_cons, hpt, hu]
        simp [hurel, hrec.1]
      · intro fid
        have hh := hrec.2 fid
        rw [happ] at hh
        rw [seqRunFrom_cons, hpt]
        simpa using hh
    | none =>
      rw [hfind] at hct
      have hpf : prev.find? (fun v => v.fid == t.fid) = none := by
        cases hpf : prev.find? (fun v => v.fid == t.fid) with
        | none => rfl
        | some u =>
          rw [hpf] at hct
          simp at hct
      have hc2 : ∀ fid, cacheLookup (cacheInsert cache t.fid t.relpath) fid =
          ((prev ++ [t]).find? (fun v => v.fid == fid)).map HLTask.relpath := by
        intro fid
        unfold cacheInsert
        rw [cacheLookup_cons, find?_append_cases]
        by_cases hfid : t.fid = fid
        · subst hfid
          rw [hpf]
          simp [List.find?]
        · have hbf : (t.fid == fid) = false := by
            simp [hfid]
          rw [hc fid]
          cases hpv : prev.find? (fun v => v.fid == fid) with
          | some v => simp [hpv, hfid]
          | none => simp [hpv, List.find?, hbf, hfid]
      have hrec := ih (prev ++ [t]) (cacheInsert cache t.fid t.relpath) hc2
      have hpt : processTask cache t =
          (cacheInsert cache t.fid t.relpath, [HLEmit.fileEntry t.fid t.relpath]) := by
        unfold processTask
        rw [hfind]
      constructor
      · rw [seqRunFrom_cons, seqExpectedFrom_cons, hpt, hpf]
        simp [hrec.1]
      · intro fid
        have hh := hrec.2 fid
        rw [happ] at hh
        rw [seqRunFrom_cons, hpt]
        simpa using hh

/-- C3 counterexample: the DashMap get and insert of the hardlink check are
two separate atomic operations, so two readers that concurrently process two
paths of one FileId can both observe an empty cache.  Under the interleaving
scheduled below both paths are emitted as regular file entries, no HardLink
is produced, and the cache ends up mapping the FileId to the second path
rather than the first emitted one, refuting the claim. -/
theorem inode_cache_race :
    (hlRun [⟨1, ["r", "a"]⟩, ⟨1, ["r", "b"]⟩] [0, 1, 0, 0, 1, 1]).emitted =
      [HLEmit.fileEntry 1 ["r", "a"], HLEmit.fileEntry 1 ["r", "b"]] ∧
    cacheLookup (hlRun [⟨1, ["r", "a"]⟩, ⟨1, ["r", "b"]⟩] [0, 1, 0, 0, 1, 1]).cache 1 =
      some ["r", "b"] ∧
    claimC3check [⟨1, ["r", "a"]⟩, ⟨1, ["r", "b"]⟩] [0, 1, 0, 0, 1, 1] = false := by
  refine ⟨by decide, by decide, by decide⟩

/-- C3 amended: when tasks with the same FileId are not interleaved (each
task runs its get and insert atomically, as in any sequential processing
order), every task whose FileId was seen before is emitted as a HardLink
whose target is the first-processed relative path of that FileId, first
occurrences are emitted as regular file entries, and the cache maps each
FileId to the relative path of its first-processed task. -/
theorem inode_cache_first_path (tasks : List HLTask) :
    (seqRun tasks).2 = seqExpectedFrom [] tasks ∧
    ∀ fid, cacheLookup (seqRun tasks).1 fid =
      (tasks.find? (fun u => u.fid == fid)).map HLTask.relpath := by
  have h := seqRunFrom_spec tasks [] []
    (by intro fid; rfl)
  refine ⟨h.1, ?_⟩
  intro fid
  simpa using h.2 fid

/-- C2: evaluation of the unpack path check at the failing input.  The check
in unpack.rs line 70 is output.join(entry).strip_prefix(output), which does
not resolve ParentDir components: the entry ../evil is not skipped although
its resolved output path /evil is not a descendant of the output root /out,
and the small-file worker then creates the file at /evil, outside the root.
An absolute entry path is the kind of input the check does skip. -/
theorem unpack_path_check_misses_dotdot :
    unpackSkips ⟨true, [PComp.name "out"]⟩ ⟨false, [PComp.parent, PComp.name "evil"]⟩ =
      false ∧
    resolvedEscapes ⟨true, [PComp.name "out"]⟩ ⟨false, [PComp.parent, PComp.name "evil"]⟩ =
      true ∧
    workerCreatesAt ⟨true, [PComp.name "out"]⟩ ⟨false, [PComp.parent, PComp.name "evil"]⟩ =
      ⟨true, [PComp.name "evil"]⟩ ∧
    unpackSkips ⟨true, [PComp.name "out"]⟩ ⟨true, [PComp.name "abs"]⟩ = true := by
  refine ⟨by decide, by decide, by decide, by decide⟩

theorem fsLookup_cons (p : List String) (n : FSNode) (fs : List (List String × FSNode))
    (q : List String) :
    fsLookup ((p, n) :: fs) q = if p = q then some n else fsLookup fs q := by
  unfold fsLookup
  by_cases h : p = q
  · subst h
    simp [List.find?_cons]
  · simp [List.find?_cons, h]

theorem ensureParent_lookup_self (fs : List (List String × FSNode)) (p : List String) :
    fsLookup (ensureParent fs p) p = fsLookup fs p := by
  unfold ensureParent
  cases hdl : p.dropLast with
  | nil => rfl
  | cons a l =>
    by_cases hs : (fsLookup fs (a :: l)).isSome
    · simp [hs]
    · have hne : (a :: l) ≠ p := by
        intro he
        have hlen := congrArg List.length hdl
        rw [← he] at hdl
        have := congrArg List.length hdl
        simp at this
      simp only [hs, if_false, Bool.false_eq_true]
      unfold fsInsert
      rw [fsLookup_cons]
      simp [hne]

theorem ensureParent_lookup_ne (fs : List (List String × FSNode)) (p q : List String)
    (hne : q ≠ p.dropLast) :
    fsLookup (ensureParent fs p) q = fsLookup fs q := by
  unfold ensureParent
  cases hdl : p.dropLast with
  | nil => rfl
  | cons a l =>
    by_cases hs : (fsLookup fs (a :: l)).isSome
    · simp [hs]
    · have hne2 : (a :: l) ≠ q := by
        intro he
        rw [← hdl] at he
        exact hne he.symm
      simp only [hs, if_false, Bool.false_eq_true]
      unfold fsInsert
      rw [fsLookup_cons]
      simp [hne2]

theorem fsLookup_remove_none (fs : List (List String × FSNode)) (p q : List String)
    (h : fsLookup fs q = none) : fsLookup (fsRemove fs p) q = none := by
  induction fs with
  | nil => rfl
  | cons e fs ih =>
    obtain ⟨e1, e2⟩ := e
    rw [fsLookup_cons] at h
    by_cases he : e1 = q
    · simp [he] at h
    · have h2 : fsLookup fs q = none := by
        simpa [he] using h
      unfold fsRemove at ih ⊢
      rw [List.filter_cons]
      by_cases hep : (e1 == p) = true
      · have hb : (!(e1 == p)) = false := by
          rw [hep]
          rfl
        rw [hb]
        simp only [Bool.false_eq_true, if_false]
        exact ih h2
      · have hb : (!(e1 == p)) = true := by
          cases hq : (e1 == p) with
          | true => exact absurd hq hep
          | false => rfl
        rw [hb]
        simp only [if_true]
        rw [fsLookup_cons, if_neg he]
        exact ih h2

/-- C10: restoring a symlink whose output path already exists succeeds and
leaves the existing object in place (the AlreadyExists error is treated as
success); restoring a hardlink first removes any existing file at the link
path and then calls hard_link; and a hard_link failure itself (here: the
link target does not exist) is a fatal error. -/
theorem unpack_link_restoration (fs : List (List String × FSNode))
    (target p : List String) (n : FSNode) :
    (fsLookup fs p = some n →
      restoreSymlink fs target p = .ok (ensureParent fs p) ∧
      fsLookup (ensureParent fs p) p = some n) ∧
    (fsLookup fs p = some n →
      restoreHardLink fs target p =
        hardLinkSyscall (fsRemove (ensureParent fs p) p) target p) ∧
    (fsLookup fs target = none → target ≠ p.dropLast →
      restoreHardLink fs target p = .error .notFound) := by
  refine ⟨?_, ?_, ?_⟩
  · intro hp
    have hp1 : fsLookup (ensureParent fs p) p = some n := by
      rw [ensureParent_lookup_self, hp]
    constructor
    · unfold restoreSymlink symlinkSyscall
      rw [hp1]
      rfl
    · exact hp1
  · intro hp
    have hp1 : fsLookup (ensureParent fs p) p = some n := by
      rw [ensureParent_lookup_self, hp]
    unfold restoreHardLink
    rw [hp1]
    rfl
  · intro htgt hnep
    have h1 : fsLookup (ensureParent fs p) target = none := by
      rw [ensureParent_lookup_ne fs p target hnep, htgt]
    unfold restoreHardLink
    by_cases hx : (fsLookup (ensureParent fs p) p).isSome = true
    · have h2 : fsLookup (fsRemove (ensureParent fs p) p) target = none :=
        fsLookup_remove_none _ _ _ h1
      rw [if_pos hx]
      unfold hardLinkSyscall
      rw [h2]
      rfl
    · rw [if_neg hx]
      unfold hardLinkSyscall
      rw [h1]
      rfl

/-- C10 witness: a file exists at out/a; the symlink restore leaves it
intact and reports success, the hardlink restore removes it first, and a
hardlink whose target out/t does not exist fails the run. -/
theorem unpack_link_restoration_witness :
    (restoreSymlink [(["out", "a"], FSNode.fileNode)] ["out", "t"] ["out", "a"] =
        .ok (ensureParent [(["out", "a"], FSNode.fileNode)] ["out", "a"]) ∧
     fsLookup (ensureParent [(["out", "a"], FSNode.fileNode)] ["out", "a"]) ["out", "a"] =
        some FSNode.fileNode) ∧
    restoreHardLink [(["out", "a"], FSNode.fileNode)] ["out", "t"] ["out", "a"] =
      hardLinkSyscall
        (fsRemove (ensureParent [(["out", "a"], FSNode.fileNode)] ["out", "a"]) ["out", "a"])
        ["out", "t"] ["out", "a"] ∧
    restoreHardLink [(["out", "a"], FSNode.fileNode)] ["out", "t"] ["out", "a"] =
      .error .notFound := by
  have h := unpack_link_restoration [(["out", "a"], FSNode.fileNode)] ["out", "t"]
    ["out", "a"] FSNode.fileNode
  exact ⟨h.1 (by decide), h.2.1 (by decide), h.2.2 (by decide) (by decide)⟩

theorem startedEvents_succ (r : Nat) (f : LFile) (k : Nat) :
    startedEvents r f (k + 1) = startedEvents r f k ++ [GEvent.chunkEvt r f.fid k] := by
  unfold startedEvents
  rw [List.range_succ]
  simp

theorem GInv_init (queues : Nat → List LFile) : GInv (gInit queues) := by
  constructor
  · intro _
    exact ⟨fun _ => rfl, ClosedTrace.nil⟩
  · intro r h
    exact Option.noConfusion h

theorem GInv_step {s s2 : GState} (hstep : GStep s s2) (hinv : GInv s) : GInv s2 := by
  cases hstep with
  | acquire r f q hlock hprog hqueue =>
    obtain ⟨hidle, hclosed⟩ := hinv.1 hlock
    constructor
    · intro h
      exact Option.noConfusion h
    · intro r2 h
      have hrr : r = r2 := Option.some.inj h
      subst hrr
      refine ⟨?_, s.trace, hclosed, Or.inl ⟨f, ?_, rfl⟩⟩
      · intro q2 hq2
        show Function.update s.progs r (RProg.acquiredGate f) q2 = RProg.idle
        rw [Function.update_noteq hq2]
        exact hidle q2
      · show Function.update s.progs r (RProg.acquiredGate f) r = RProg.acquiredGate f
        rw [Function.update_same]
  | sendStart r f hprog =>
    cases hl : s.lock with
    | none =>
      exfalso
      have hidle := (hinv.1 hl).1 r
      rw [hprog] at hidle
      exact RProg.noConfusion hidle
    | some r0 =>
      obtain ⟨hoth, c, hclosed, hdisj⟩ := hinv.2 r0 hl
      have hrr : r = r0 := by
        by_contra hne
        have hq := hoth r hne
        rw [hprog] at hq
        exact RProg.noConfusion hq
      subst hrr
      obtain ⟨f2, hpf, htr⟩ :
          ∃ f2, s.progs r = RProg.acquiredGate f2 ∧ s.trace = c := by
        rcases hdisj with ⟨f2, hpf, htr⟩ | ⟨f2, k2, hpf, _, _⟩ | ⟨f2, hpf, _⟩
        · exact ⟨f2, hpf, htr⟩
        · rw [hprog] at hpf
          exact RProg.noConfusion hpf
        · rw [hprog] at hpf
          exact RProg.noConfusion hpf
      have hf : f = f2 := by
        rw [hprog] at hpf
        injection hpf with h1
      subst hf
      constructor
      · intro h
        exact Option.noConfusion h
      · intro r2 h
        have hrr2 : r = r2 := Option.some.inj h
        subst hrr2
        refine ⟨?_, c, hclosed, Or.inr (Or.inl ⟨f, 0, ?_, Nat.zero_le _, ?_⟩)⟩
        · intro q2 hq2
          show Function.update s.progs r (RProg.streaming f 0) q2 = RProg.idle
          rw [Function.update_noteq hq2]
          exact hoth q2 hq2
        · show Function.update s.progs r (RProg.streaming f 0) r = RProg.streaming f 0
          rw [Function.update_same]
        · show s.trace ++ [GEvent.startEvt r f.fid] = c ++ startedEvents r f 0
          rw [htr]
          unfold startedEvents
          simp
  | sendChunk r f k hprog hk =>
    cases hl : s.lock with
    | none =>
      exfalso
      have hidle := (hinv.1 hl).1 r
      rw [hprog] at hidle
      exact RProg.noConfusion hidle
    | some r0 =>
      obtain ⟨hoth, c, hclosed, hdisj⟩ := hinv.2 r0 hl
      have hrr : r = r0 := by
        by_contra hne
        have hq := hoth r hne
        rw [hprog] at hq
        exact RProg.noConfusion hq
      subst hrr
      obtain ⟨f2, k2, hpf, hk2, htr⟩ :
          ∃ f2 k2, s.progs r = RProg.streaming f2 k2 ∧ k2 ≤ f2.nchunks ∧
            s.trace = c ++ startedEvents r f2 k2 := by
        rcases hdisj with ⟨f2, hpf, _⟩ | ⟨f2, k2, hpf, hk2, htr⟩ | ⟨f2, hpf, _⟩
        · rw [hprog] at hpf
          exact RProg.noConfusion hpf
        · exact ⟨f2, k2, hpf, hk2, htr⟩
        · rw [hprog] at hpf
          exact RProg.noConfusion hpf
      have hfk : f = f2 ∧ k = k2 := by
        rw [hprog] at hpf
        injection hpf with h1 h2
        exact ⟨h1, h2⟩
      obtain ⟨hf, hkk⟩ := hfk
      subst hf
      subst hkk
      constructor
      · intro h
        exact Option.noConfusion h
      · intro r2 h
        have hrr2 : r = r2 := Option.some.inj h
        subst hrr2
        refine ⟨?_, c, hclosed,
          Or.inr (Or.inl ⟨f, k + 1, ?_, Nat.succ_le_of_lt hk, ?_⟩)⟩
        · intro q2 hq2
          show Function.update s.progs r (RProg.streaming f (k + 1)) q2 = RProg.idle
          rw [Function.update_noteq hq2]
          exact hoth q2 hq2
        · show Function.update s.progs r (RProg.streaming f (k + 1)) r =
            RProg.streaming f (k + 1)
          rw [Function.update_same]
        · show s.trace ++ [GEvent.chunkEvt r f.fid k] = c ++ startedEvents r f (k + 1)
          rw [htr, startedEvents_succ, List.append_assoc]
  | sendEnd r f hprog =>
    cases hl : s.lock with
    | none =>
      exfalso
      have hidle := (hinv.1 hl).1 r
      rw [hprog] at hidle
      exact RProg.noConfusion hidle
    | some r0 =>
      obtain ⟨hoth, c, hclosed, hdisj⟩ := hinv.2 r0 hl
      have hrr : r = r0 := by
        by_contra hne
        have hq := hoth r hne
        rw [hprog] at hq
        exact RProg.noConfusion hq
      subst hrr
      obtain ⟨f2, k2, hpf, hk2, htr⟩ :
          ∃ f2 k2, s.progs r = RProg.streaming f2 k2 ∧ k2 ≤ f2.nchunks ∧
            s.trace = c ++ startedEvents r f2 k2 := by
        rcases hdisj with ⟨f2, hpf, _⟩ | ⟨f2, k2, hpf, hk2, htr⟩ | ⟨f2, hpf, _⟩
        · rw [hprog] at hpf
          exact RProg.noConfusion hpf
        · exact ⟨f2, k2, hpf, hk2, htr⟩
        · rw [hprog] at hpf
          exact RProg.noConfusion hpf
      have hfk : f = f2 ∧ f.nchunks = k2 := by
        rw [hprog] at hpf
        injection hpf with h1 h2
        exact ⟨h1, h2⟩
      obtain ⟨hf, hkk⟩ := hfk
      subst hf
      constructor
      · intro h
        exact Option.noConfusion h
      · intro r2 h
        have hrr2 : r = r2 := Option.some.inj h
        subst hrr2
        refine ⟨?_, c, hclosed, Or.inr (Or.inr ⟨f, ?_, ?_⟩)⟩
        · intro q2 hq2
          show Function.update s.progs r (RProg.streamed f) q2 = RProg.idle
          rw [Function.update_noteq hq2]
          exact hoth q2 hq2
        · show Function.update s.progs r (RProg.streamed f) r = RProg.streamed f
          rw [Function.update_same]
        · show s.trace ++ [GEvent.endEvt r f.fid] = c ++ blockEvents r f
          rw [htr, ← hkk]
          unfold blockEvents
          rw [List.append_assoc]
  | release r f hprog hlock =>
    obtain ⟨hoth, c, hclosed, hdisj⟩ := hinv.2 r hlock
    obtain ⟨f2, hpf, htr⟩ :
        ∃ f2, s.progs r = RProg.streamed f2 ∧ s.trace = c ++ blockEvents r f2 := by
      rcases hdisj with ⟨f2, hpf, _⟩ | ⟨f2, k2, hpf, _, _⟩ | ⟨f2, hpf, htr⟩
      · rw [hprog] at hpf
        exact RProg.noConfusion hpf
      · rw [hprog] at hpf
        exact RProg.noConfusion hpf
      · exact ⟨f2, hpf, htr⟩
    constructor
    · intro _
      constructor
      · intro q2
        by_cases hq : q2 = r
        · subst hq
          show Function.update s.progs q2 RProg.idle q2 = RProg.idle
          rw [Function.update_same]
        · show Function.update s.progs r RProg.idle q2 = RProg.idle
          rw [Function.update_noteq hq]
          exact hoth q2 hq
      · show ClosedTrace s.trace
        rw [htr]
        exact ClosedTrace.snoc c r f2 hclosed
    · intro r2 h
      exact Option.noConfusion h

theorem GInv_reachable (queues : Nat → List LFile) {s : GState}
    (h : GReachable queues s) : GInv s := by
  induction h with
  | refl => exact GInv_init queues
  | tail _ hbc ih => exact GInv_step hbc ih

/-- C7: in every reachable state of the gate model, the event trace is a
sequence of complete per-file blocks, possibly followed by the single open
block of the current gate holder.  Hence at most one large file is
interleaved at a time: from LargeFileStart until the matching LargeFileEnd
the emitting reader holds the gate, no other reader emits a LargeFileStart
or a chunk of a different file in between, and the writer encounters the
chunks of each file contiguously. -/
theorem large_file_gate_serialized (queues : Nat → List LFile) (s : GState)
    (h : GReachable queues s) : TraceSerialized s.trace := by
  have hinv := GInv_reachable queues h
  cases hl : s.lock with
  | none =>
    obtain ⟨_, hcl⟩ := hinv.1 hl
    exact ⟨s.trace, [], by simp, hcl, Or.inl rfl⟩
  | some r =>
    obtain ⟨_, c, hcl, hdisj⟩ := hinv.2 r hl
    rcases hdisj with ⟨f, _, htr⟩ | ⟨f, k, _, hk, htr⟩ | ⟨f, _, htr⟩
    · exact ⟨c, [], by simp [htr], hcl, Or.inl rfl⟩
    · exact ⟨c, startedEvents r f k, htr, hcl, Or.inr (Or.inl ⟨r, f, k, hk, rfl⟩)⟩
    · exact ⟨c, blockEvents r f, htr, hcl, Or.inr (Or.inr ⟨r, f, rfl⟩)⟩

/-- C7 witness: after a reader acquires the gate and emits the Start of a
file with two pending chunks, the trace consisting of that single Start
event is serialized. -/
theorem large_file_gate_serialized_witness :
    TraceSerialized [GEvent.startEvt 0 5] := by
  have h1 : GStep (gInit (fun _ => [⟨5, 2⟩]))
      { gInit (fun _ => [⟨5, 2⟩]) with
        lock := some 0,
        progs := Function.update (gInit (fun _ => [⟨5, 2⟩])).progs 0
          (RProg.acquiredGate ⟨5, 2⟩),
        queues := Function.update (gInit (fun _ => [⟨5, 2⟩])).queues 0 [] } :=
    GStep.acquire _ 0 ⟨5, 2⟩ [] rfl rfl rfl
  have h2 : GStep
      { gInit (fun _ => [⟨5, 2⟩]) with
        lock := some 0,
        progs := Function.update (gInit (fun _ => [⟨5, 2⟩])).progs 0
          (RProg.acquiredGate ⟨5, 2⟩),
        queues := Function.update (gInit (fun _ => [⟨5, 2⟩])).queues 0 [] }
      { gInit (fun _ => [⟨5, 2⟩]) with
        lock := some 0,
        progs := Function.update
          (Function.update (gInit (fun _ => [⟨5, 2⟩])).progs 0
            (RProg.acquiredGate ⟨5, 2⟩)) 0 (RProg.streaming ⟨5, 2⟩ 0),
        queues := Function.update (gInit (fun _ => [⟨5, 2⟩])).queues 0 [],
        trace := [] ++ [GEvent.startEvt 0 5] } :=
    GStep.sendStart _ 0 ⟨5, 2⟩ rfl
  have hreach := Relation.ReflTransGen.tail
    (Relation.ReflTransGen.tail Relation.ReflTransGen.refl h1) h2
  have hser := large_file_gate_serialized (fun _ => [⟨5, 2⟩]) _ hreach
  simpa using hser

end ZStar
